import Mathlib

/-
Formal model of bk (janoelze/bk), a terminal directory-bookmark selector.

The whole program lives in main.go.  This file embeds, shallowly:
  - the Bookmark record and the selector session state (struct model);
  - the pure helpers sortBookmarks' insertion regime, filterBookmarks;
  - the key-event transition function model.Update, with its two effects
    (quitting the event loop, and persisting the bookmark list through
    saveConfig) made explicit in the returned StepResult;
  - the Store layer: loadConfig and saveConfig, with the JSON document
    modelled as a tree value and the encoding/json (un)marshalling of the
    Config and Bookmark structs modelled at that level.

Go strings are modelled at rune granularity (a Lean String, i.e. a list of
characters); strings.ToLower is modelled per character by Char.toLower,
which coincides with Go on ASCII.  Go ints are modelled by Int, and slice
indices and lengths by Nat (every index arithmetic in main.go is guarded so
that the Nat and int readings agree; this is noted at each use).
-/

/-- Bookmark mirrors the Go struct Bookmark (main.go 17-21): a saved
directory path, an optional alias, and a usage counter. -/
structure Bookmark where
  path : String
  name : String
  count : Int
deriving Repr, DecidableEq

/-- The Go zero value of Bookmark. -/
instance : Inhabited Bookmark := ⟨⟨"", "", 0⟩⟩

/-- Modelled from strings.ToLower, restricted to per-character simple case
mapping (exact for ASCII, which is all the repository's tests exercise). -/
def goToLower (s : String) : String := String.mk (s.data.map Char.toLower)

/-- Helper for goContains: does the pattern (first argument) start the
string (second argument)? -/
def isPre : List Char → List Char → Bool
  | [], _ => true
  | _ :: _, [] => false
  | a :: as, b :: bs => a == b && isPre as bs

/-- Helper for goContains: does the pattern (second argument) occur
contiguously in the string (first argument)? -/
def hasSub : List Char → List Char → Bool
  | [], pat => pat.isEmpty
  | c :: rest, pat => isPre pat (c :: rest) || hasSub rest pat

/-- Modelled from strings.Contains(s, pat): pat occurs as a contiguous
substring of s (true whenever pat is empty). -/
def goContains (s pat : String) : Bool := hasSub s.data pat.data

/-- The per-record test inside the loop of filterBookmarks (main.go
98-103): the lower-cased name or the lower-cased path contains the
(already lower-cased) filter. -/
def bkMatches (f : String) (b : Bookmark) : Bool :=
  goContains (goToLower b.name) f || goContains (goToLower b.path) f

/-- The index-collecting loop of filterBookmarks (main.go 97-104),
with i the index of the first element of the remaining list. -/
def filterIdx (f : String) : List Bookmark → Nat → List Nat
  | [], _ => []
  | b :: rest, i =>
      if bkMatches f b then i :: filterIdx f rest (i + 1)
      else filterIdx f rest (i + 1)

/-- filterBookmarks (main.go 88-106): with an empty filter, the identity
index sequence; otherwise the indices of the records whose lower-cased
name or path contains the lower-cased filter, in order. -/
def filterBookmarks (bookmarks : List Bookmark) (filter : String) : List Nat :=
  if filter = "" then List.range bookmarks.length
  else filterIdx (goToLower filter) bookmarks 0

/-- Model mirrors the Go struct model (main.go 29-37): the selector
session state. -/
structure Model where
  bookmarks : List Bookmark
  filtered : List Nat
  cursor : Nat
  filter : String
  editing : Bool
  editValue : String
  selectedPath : String
deriving Repr, DecidableEq

/-- The key events model.Update distinguishes (the tea.KeyMsg types
matched in main.go): enter, escape, backspace, space, ctrl-c, the arrow
keys, a run of printable characters, and any other key type (which no
case of either switch matches). -/
inductive Key where
  | enter
  | esc
  | backspace
  | space
  | ctrlC
  | up
  | down
  | runes (s : String)
  | other
deriving Repr, DecidableEq

/-- The outcome of one call to model.Update: the next session state,
whether the returned command quits the event loop (tea.Quit), and the
bookmark list handed to saveConfig, when a save happens on this event. -/
structure StepResult where
  model : Model
  quit : Bool
  saved : Option (List Bookmark)
deriving Repr, DecidableEq

/-- The Go statement return m, nil. -/
def noStep (m : Model) : StepResult := ⟨m, false, none⟩

/-- The Go statement return m, tea.Quit. -/
def quitStep (m : Model) : StepResult := ⟨m, true, none⟩

/-- The filter-extension tail of the KeyRunes case (main.go 227-229):
append the typed characters to the filter, recompute filtered, reset the
cursor. -/
def appendToFilter (m : Model) (char : String) : Model :=
  let filter := m.filter ++ char
  { m with filter := filter, filtered := filterBookmarks m.bookmarks filter,
           cursor := 0 }

/-- The editing-mode switch of model.Update (main.go 126-152).  Every one
of its cases ends in return m, nil.  Slice reads m.filtered[m.cursor] and
m.bookmarks[idx] are modelled with getD (Go would panic out of range; the
session-state invariants proved below keep every reachable access in
range). -/
def updateEditing (m : Model) (key : Key) : StepResult :=
  match key with
  | .enter =>
      if 0 < m.filtered.length then
        let idx := m.filtered.getD m.cursor 0
        let b := m.bookmarks.getD idx default
        let bookmarks := m.bookmarks.set idx { b with name := m.editValue }
        { model := { m with bookmarks := bookmarks, editing := false,
                            editValue := "" },
          quit := false, saved := some bookmarks }
      else
        noStep { m with editing := false, editValue := "" }
  | .esc => noStep { m with editing := false, editValue := "" }
  | .backspace =>
      if 0 < m.editValue.length then
        noStep { m with editValue := String.mk m.editValue.data.dropLast }
      else noStep m
  | .space => noStep { m with editValue := m.editValue ++ " " }
  | .runes s => noStep { m with editValue := m.editValue ++ s }
  | _ => noStep m

/-- The browsing-mode switch of model.Update (main.go 154-230).  The
deletion append(b[:idx], b[idx+1:]...) is modelled as
take idx ++ drop (idx + 1). -/
def updateBrowsing (m : Model) (key : Key) : StepResult :=
  match key with
  | .ctrlC => quitStep m
  | .esc =>
      if m.filter ≠ "" then
        noStep { m with filter := "",
                        filtered := filterBookmarks m.bookmarks "",
                        cursor := 0 }
      else quitStep m
  | .up =>
      if 0 < m.cursor then noStep { m with cursor := m.cursor - 1 }
      else noStep m
  | .down =>
      if m.cursor < m.filtered.length - 1 then
        noStep { m with cursor := m.cursor + 1 }
      else noStep m
  | .enter =>
      if 0 < m.filtered.length then
        let idx := m.filtered.getD m.cursor 0
        let b := m.bookmarks.getD idx default
        let bookmarks := m.bookmarks.set idx { b with count := b.count + 1 }
        { model := { m with bookmarks := bookmarks,
                            selectedPath := (bookmarks.getD idx default).path },
          quit := true, saved := some bookmarks }
      else noStep m
  | .backspace =>
      if 0 < m.filter.length then
        let filter := String.mk m.filter.data.dropLast
        noStep { m with filter := filter,
                        filtered := filterBookmarks m.bookmarks filter,
                        cursor := 0 }
      else noStep m
  | .runes char =>
      if m.filter = "" then
        if char = "q" then quitStep m
        else if char = "e" then
          if 0 < m.filtered.length then
            let idx := m.filtered.getD m.cursor 0
            noStep { m with editing := true,
                            editValue := (m.bookmarks.getD idx default).name }
          else noStep m
        else if char = "d" then
          if 0 < m.filtered.length then
            let idx := m.filtered.getD m.cursor 0
            let bookmarks := m.bookmarks.take idx ++ m.bookmarks.drop (idx + 1)
            let filtered := filterBookmarks bookmarks m.filter
            let cursor :=
              if filtered.length ≤ m.cursor ∧ 0 < m.cursor then m.cursor - 1
              else m.cursor
            { model := { m with bookmarks := bookmarks, filtered := filtered,
                                cursor := cursor },
              quit := false, saved := some bookmarks }
          else noStep m
        else if char = "j" then
          if m.cursor < m.filtered.length - 1 then
            noStep { m with cursor := m.cursor + 1 }
          else noStep m
        else if char = "k" then
          if 0 < m.cursor then noStep { m with cursor := m.cursor - 1 }
          else noStep m
        else noStep (appendToFilter m char)
      else noStep (appendToFilter m char)
  | _ => noStep m

/-- model.Update (main.go 123-233), one key event: the editing switch when
m.editing is set, the browsing switch otherwise. -/
def update (m : Model) (key : Key) : StepResult :=
  if m.editing then updateEditing m key else updateBrowsing m key

/-- A JSON document, as a tree value; the textual layer (lexing, string
escapes, indentation) is left below this abstraction.  Numbers are
modelled as integers, which covers every number the program itself writes. -/
inductive Json where
  | null
  | jbool (b : Bool)
  | num (n : Int)
  | str (s : String)
  | arr (elems : List Json)
  | obj (fields : List (String × Json))
deriving Repr

/-- Decoding a JSON value into a Go string field, following encoding/json:
a JSON string sets the field, null leaves it unchanged, anything else
leaves it unchanged and reports an UnmarshalTypeError.  Returns the field
value and whether an error was reported. -/
def decString (j : Json) (init : String) : String × Bool :=
  match j with
  | .str s => (s, false)
  | .null => (init, false)
  | _ => (init, true)

/-- Decoding a JSON value into a Go int field (same shape as decString). -/
def decInt (j : Json) (init : Int) : Int × Bool :=
  match j with
  | .num n => (n, false)
  | .null => (init, false)
  | _ => (init, true)

/-- Decoding a JSON value into a Bookmark struct, following encoding/json:
object members are processed in order, matched to the fields path / name /
count case-insensitively; a member whose value has the wrong type leaves
that field as it was and records an error, but decoding continues with the
remaining members ("Unmarshal ... completes the unmarshaling as best it
can").  null and non-object values leave the struct unchanged (non-object
values record an error). -/
def decBookmark (j : Json) (init : Bookmark) : Bookmark × Bool :=
  match j with
  | .obj fields =>
      fields.foldl
        (fun acc kv =>
          if goToLower kv.1 = "path" then
            let r := decString kv.2 acc.1.path
            ({ acc.1 with path := r.1 }, acc.2 || r.2)
          else if goToLower kv.1 = "name" then
            let r := decString kv.2 acc.1.name
            ({ acc.1 with name := r.1 }, acc.2 || r.2)
          else if goToLower kv.1 = "count" then
            let r := decInt kv.2 acc.1.count
            ({ acc.1 with count := r.1 }, acc.2 || r.2)
          else acc)
        (init, false)
  | .null => (init, false)
  | _ => (init, true)

/-- Decoding a JSON array element-wise into a []Bookmark, each element
into the corresponding existing element of the slice being decoded into
(zero Bookmark where the slice is grown). -/
def decElems : List Json → List Bookmark → List Bookmark × Bool
  | [], _ => ([], false)
  | e :: es, olds =>
      let hd := decBookmark e (olds.headD default)
      let tl := decElems es olds.tail
      (hd.1 :: tl.1, hd.2 || tl.2)

/-- Decoding a JSON value into the []Bookmark field: an array decodes
element-wise, null sets the slice to nil, anything else leaves the slice
and records an error. -/
def decBookmarkList (j : Json) (init : List Bookmark) : List Bookmark × Bool :=
  match j with
  | .arr elems => decElems elems init
  | .null => ([], false)
  | _ => (init, true)

/-- Decoding a JSON value into the Config struct (whose zero value has a
nil Bookmarks slice, i.e. the empty sequence): object members are
processed in order, the member matching bookmarks case-insensitively is
decoded into the slice, other members are ignored.  Returns the resulting
bookmark list and whether json.Unmarshal reported any error. -/
def decConfig (j : Json) : List Bookmark × Bool :=
  match j with
  | .obj fields =>
      fields.foldl
        (fun acc kv =>
          if goToLower kv.1 = "bookmarks" then
            let r := decBookmarkList kv.2 acc.1
            (r.1, acc.2 || r.2)
          else acc)
        ([], false)
  | .null => ([], false)
  | _ => ([], true)

/-- The states the store file can be in when loadConfig reads it: missing,
unreadable (both make os.ReadFile fail), readable but not syntactically
valid JSON, or a readable document denoting the JSON value j. -/
inductive StoreFile where
  | missing
  | unreadable
  | invalid
  | doc (j : Json)

/-- loadConfig (main.go 58-67): a read error yields the empty list; the
contents are then passed to json.Unmarshal with the error discarded.  On
syntactically invalid JSON, Unmarshal rejects the document before writing
anything into config (it validates the syntax first), so the zero Config
— an empty bookmark list — is returned; on a valid document the decoded
struct is returned whether or not Unmarshal reported an error. -/
def loadConfig : StoreFile → List Bookmark
  | .missing => []
  | .unreadable => []
  | .invalid => []
  | .doc j => (decConfig j).1

/-- Marshalling one Bookmark (struct field order path, name, count; the
name field carries omitempty, so an empty name is omitted). -/
def bookmarkJson (b : Bookmark) : Json :=
  Json.obj ([("path", Json.str b.path)]
    ++ (if b.name = "" then [] else [("name", Json.str b.name)])
    ++ [("count", Json.num b.count)])

/-- Marshalling the Config struct: a single member bookmarks holding the
array of marshalled records. -/
def configJson (bs : List Bookmark) : Json :=
  Json.obj [("bookmarks", Json.arr (bs.map bookmarkJson))]

/-- saveConfig (main.go 69-80): the store file is overwritten with the
MarshalIndent rendering of the Config, a syntactically valid document
denoting configJson bs. -/
def saveConfig (bs : List Bookmark) : StoreFile := .doc (configJson bs)

/-- Session-state invariant: filtered is exactly the filter of the current
bookmark list by the current filter text. -/
def wfFiltered (m : Model) : Prop :=
  m.filtered = filterBookmarks m.bookmarks m.filter

/-- Session-state invariant: edit mode is only ever entered with an empty
filter (the e command is only recognised when m.filter is empty), and the
filter cannot change while editing. -/
def wfEditing (m : Model) : Prop :=
  m.editing = true → m.filter = ""

/-- Session-state invariant: the cursor is in range whenever the filtered
view is non-empty. -/
def wfCursor (m : Model) : Prop :=
  m.filtered ≠ [] → m.cursor < m.filtered.length

instance (m : Model) : Decidable (wfFiltered m) := by
  unfold wfFiltered
  infer_instance

instance (m : Model) : Decidable (wfEditing m) := by
  unfold wfEditing
  infer_instance

instance (m : Model) : Decidable (wfCursor m) := by
  unfold wfCursor
  infer_instance

/-- The session state initialModel (main.go 108-117) builds from a loaded
(and sorted) bookmark list bs: filtered computed with the empty filter,
cursor 0, not editing. -/
def initialFrom (bs : List Bookmark) : Model :=
  { bookmarks := bs, filtered := filterBookmarks bs "", cursor := 0,
    filter := "", editing := false, editValue := "", selectedPath := "" }

/-- Sample records (the ones the specification's test properties use). -/
def workBk : Bookmark := ⟨"/home/u/work", "work", 3⟩

def playBk : Bookmark := ⟨"/tmp/play", "", 1⟩

/-- A two-record session with the cursor moved to the second row: the
state reached from initialFrom [workBk, playBk] by one down-key. -/
def twoState : Model := (update (initialFrom [workBk, playBk]) .down).model

/-- A one-record session (the record has no alias). -/
def scenStart : Model := initialFrom [playBk]

/-- The state after pressing e and typing x then y in scenStart. -/
def scenTyped : Model :=
  (update (update (update scenStart (.runes "e")).model
    (.runes "x")).model (.runes "y")).model

/-- A syntactically valid store document in which one count field holds a
string: json.Unmarshal reports an UnmarshalTypeError for it, but decodes
the rest of the document as best it can. -/
def badStoreDoc : Json :=
  Json.obj [("bookmarks", Json.arr
    [Json.obj [("path", Json.str "/a"), ("count", Json.str "x")],
     Json.obj [("path", Json.str "/b"), ("count", Json.num 2)]])]

/-- Swap of two positions of a bookmark slice (sort.Swap). -/
def swapBk (bs : List Bookmark) (i j : Nat) : List Bookmark :=
  (bs.set i (bs.getD j default)).set j (bs.getD i default)

/-- The inner loop of the Go standard library's insertionSort (for j := i;
j > a && data.Less(j, j-1); j--, with Less(i, j) being
bookmarks[i].Count > bookmarks[j].Count, the comparison sortBookmarks
passes to sort.Slice). -/
def sinkAt : List Bookmark → Nat → List Bookmark
  | bs, 0 => bs
  | bs, j + 1 =>
      if (bs.getD j default).count < (bs.getD (j + 1) default).count
      then sinkAt (swapBk bs (j + 1) j) j
      else bs

/-- The insertion sort that Go's sort.Slice (pdqsort) runs on slices of at
most 12 elements — in particular on every list the specification's sort
examples use.  sort.Slice as a whole is documented as not guaranteed
stable, so this models only its small-slice regime, which is where the
stability of sortBookmarks can be settled. -/
def insertionSortGo (bs : List Bookmark) : List Bookmark :=
  (List.range bs.length).foldl sinkAt bs

/-! Basic facts about the string and filter helpers. -/

lemma goToLower_empty : goToLower "" = "" := rfl

lemma isPre_nil (l : List Char) : isPre [] l = true := by cases l <;> rfl

lemma goContains_empty (s : String) : goContains s "" = true := by
  show hasSub s.data [] = true
  induction s.data with
  | nil => rfl
  | cons c rest ih => simp [hasSub, isPre_nil, ih]

lemma bkMatches_empty (b : Bookmark) : bkMatches (goToLower "") b = true := by
  simp [bkMatches, goToLower_empty, goContains_empty]

lemma bkMatches_count (f : String) (b : Bookmark) (c : Int) :
    bkMatches f { b with count := c } = bkMatches f b := rfl

lemma filterBookmarks_empty_filter (bs : List Bookmark) :
    filterBookmarks bs "" = List.range bs.length := by
  simp [filterBookmarks]

lemma filterIdx_set_count (f : String) (c : Int) :
    ∀ (bs : List Bookmark) (idx i : Nat),
      filterIdx f (bs.set idx { bs.getD idx default with count := c }) i
        = filterIdx f bs i := by
  intro bs
  induction bs with
  | nil => intro idx i; rfl
  | cons b rest ih =>
      intro idx i
      cases idx with
      | zero =>
          simp only [List.set, List.getD_cons_zero, filterIdx, bkMatches_count]
      | succ k =>
          simp only [List.set, List.getD_cons_succ, filterIdx, ih]

/-- Incrementing the count of a record (what a confirm-key does) never
changes which records match the filter. -/
lemma filterBookmarks_set_count (bs : List Bookmark) (f : String) (idx : Nat)
    (c : Int) :
    filterBookmarks (bs.set idx { bs.getD idx default with count := c }) f
      = filterBookmarks bs f := by
  unfold filterBookmarks
  split
  · simp [List.length_set]
  · exact filterIdx_set_count (goToLower f) c bs idx 0

lemma filterBookmarks_set_count_nf (bs : List Bookmark) (f : String)
    (idx : Nat) (c : Int) :
    filterBookmarks (bs.set idx
      { path := (bs[idx]?.getD default).path,
        name := (bs[idx]?.getD default).name, count := c }) f
      = filterBookmarks bs f := by
  have h := filterBookmarks_set_count bs f idx c
  simpa [List.getD_eq_getElem?_getD] using h

lemma filterIdx_eq (f : String) :
    ∀ (bs : List Bookmark) (i : Nat),
      filterIdx f bs i
        = ((List.range bs.length).filter
            (fun j => bkMatches f (bs.getD j default))).map (fun j => j + i) := by
  intro bs
  induction bs with
  | nil => intro i; rfl
  | cons b rest ih =>
      intro i
      have hcomp :
          ((fun j => bkMatches f ((b :: rest).getD j default)) ∘ Nat.succ)
            = fun j => bkMatches f (rest.getD j default) := by
        funext j
        simp [Function.comp, List.getD_cons_succ]
      simp only [filterIdx, List.length_cons, List.range_succ_eq_map,
        List.filter_cons, List.getD_cons_zero, List.filter_map, hcomp]
      have hmm :
          (List.map (fun j => j + i) (List.map Nat.succ
            (List.filter (fun j => bkMatches f (rest.getD j default))
              (List.range rest.length))))
            = List.map (fun j => j + (i + 1))
                (List.filter (fun j => bkMatches f (rest.getD j default))
                  (List.range rest.length)) := by
        rw [List.map_map]
        apply List.map_congr_left
        intro j hj
        simp [Function.comp, Nat.succ_eq_add_one]
        omega
      by_cases hb : bkMatches f b
      · simp [hb, ih, hmm]
        intro a _ _
        omega
      · simp [hb, ih, hmm]
        intro a _ _
        omega

/-- Characterization of filterBookmarks: exactly the indices of the
records whose lower-cased name or path contains the lower-cased filter,
in increasing order. -/
lemma filterBookmarks_eq (bs : List Bookmark) (f : String) :
    filterBookmarks bs f
      = (List.range bs.length).filter
          (fun j => bkMatches (goToLower f) (bs.getD j default)) := by
  unfold filterBookmarks
  split
  · rename_i hf
    subst hf
    rw [List.filter_eq_self.mpr]
    intro a _
    exact bkMatches_empty _
  · rw [filterIdx_eq]
    have : (fun (j : Nat) => j + 0) = fun (j : Nat) => j := by
      funext j; omega
    rw [this, List.map_id']

/-! Preservation of the session-state invariants by model.Update. -/

set_option maxHeartbeats 1000000 in
lemma wfEditing_step (m : Model) (k : Key) (h2 : wfEditing m) :
    wfEditing (update m k).model := by
  unfold wfEditing at *
  by_cases he : m.editing = true
  · have hf0 : m.filter = "" := h2 he
    cases k <;> simp only [update, he, if_true, updateEditing] <;>
      (try split_ifs) <;> simp_all [noStep, quitStep]
  · cases k <;> simp only [update, he, if_false, updateBrowsing] <;>
      (try split_ifs) <;> simp_all [noStep, quitStep, appendToFilter]

set_option maxHeartbeats 1000000 in
lemma wfFiltered_step (m : Model) (k : Key) (h1 : wfFiltered m)
    (h2 : wfEditing m) : wfFiltered (update m k).model := by
  unfold wfFiltered wfEditing at *
  by_cases he : m.editing = true
  · have hf0 : m.filter = "" := h2 he
    cases k <;> simp only [update, he, if_true, updateEditing] <;>
      (try split_ifs) <;>
      simp_all [noStep, quitStep, filterBookmarks_empty_filter, List.length_set]
  · cases k <;> simp only [update, he, if_false, updateBrowsing] <;>
      (try split_ifs) <;>
      simp_all [noStep, quitStep, appendToFilter, filterBookmarks_set_count,
        filterBookmarks_set_count_nf, filterBookmarks_empty_filter]

lemma getD_range_lt (n c : Nat) (h : c < n) : (List.range n).getD c 0 = c := by
  rw [List.getD_eq_getElem?_getD, List.getElem?_range h]
  rfl

lemma length_deleteIdx (bs : List Bookmark) (idx : Nat) (h : idx < bs.length) :
    (bs.take idx ++ bs.drop (idx + 1)).length = bs.length - 1 := by
  simp only [List.length_append, List.length_take, List.length_drop]
  omega

set_option maxHeartbeats 1000000 in
lemma wfCursor_step (m : Model) (k : Key) (h1 : wfFiltered m)
    (h2 : wfEditing m) (h3 : wfCursor m) : wfCursor (update m k).model := by
  unfold wfFiltered wfEditing wfCursor at *
  by_cases he : m.editing = true
  · cases k <;> simp only [update, he, if_true, updateEditing] <;>
      (try split_ifs) <;> exact h3
  · have he' : m.editing = false := by simpa using he
    cases k with
    | ctrlC => simpa [update, he', updateBrowsing, quitStep] using h3
    | other => simpa [update, he', updateBrowsing, noStep] using h3
    | space => simpa [update, he', updateBrowsing, noStep] using h3
    | enter =>
        simp only [update, he', Bool.false_eq_true, if_false, updateBrowsing]
        split_ifs with hlen
        · exact h3
        · exact h3
    | esc =>
        simp only [update, he', Bool.false_eq_true, if_false, updateBrowsing]
        split_ifs with hf
        · dsimp only [noStep]
          intro hne
          exact List.length_pos.mpr hne
        · exact h3
    | up =>
        simp only [update, he', Bool.false_eq_true, if_false, updateBrowsing]
        split_ifs with hc
        · dsimp only [noStep]
          intro hne
          have := h3 hne
          omega
        · exact h3
    | down =>
        simp only [update, he', Bool.false_eq_true, if_false, updateBrowsing]
        split_ifs with hc
        · dsimp only [noStep]
          intro hne
          omega
        · exact h3
    | backspace =>
        simp only [update, he', Bool.false_eq_true, if_false, updateBrowsing]
        split_ifs with hf
        · dsimp only [noStep]
          intro hne
          exact List.length_pos.mpr hne
        · exact h3
    | runes s =>
        by_cases hf : m.filter = ""
        · by_cases hq : s = "q"
          · simpa [update, he', updateBrowsing, hf, hq, quitStep] using h3
          · by_cases hekey : s = "e"
            · subst hekey
              simp only [update, he', Bool.false_eq_true, if_false, updateBrowsing, hf, if_pos rfl]
              simp only [reduceIte]
              split_ifs with hlen
              · exact h3
              · exact h3
            · by_cases hd : s = "d"
              · subst hd
                simp only [update, he', Bool.false_eq_true, if_false, updateBrowsing,
                  hf, if_pos rfl]
                simp only [reduceIte]
                split_ifs with hlen hclamp
                · dsimp only
                  have hn : 0 < m.bookmarks.length := by
                    rw [h1, hf, filterBookmarks_empty_filter,
                      List.length_range] at hlen
                    exact hlen
                  have hcur : m.cursor < m.bookmarks.length := by
                    have := h3 (List.length_pos.mp hlen)
                    rw [h1, hf, filterBookmarks_empty_filter,
                      List.length_range] at this
                    exact this
                  have hidx : m.filtered.getD m.cursor 0 = m.cursor := by
                    rw [h1, hf, filterBookmarks_empty_filter]
                    exact getD_range_lt _ _ hcur
                  rw [hidx] at hclamp ⊢
                  simp only [filterBookmarks_empty_filter,
                    length_deleteIdx m.bookmarks m.cursor hcur,
                    List.length_range] at hclamp ⊢
                  intro hne
                  have hpos : 0 < m.bookmarks.length - 1 := by
                    simpa using List.length_pos.mpr hne
                  omega
                · dsimp only
                  have hcur : m.cursor < m.bookmarks.length := by
                    have := h3 (List.length_pos.mp hlen)
                    rw [h1, hf, filterBookmarks_empty_filter,
                      List.length_range] at this
                    exact this
                  have hidx : m.filtered.getD m.cursor 0 = m.cursor := by
                    rw [h1, hf, filterBookmarks_empty_filter]
                    exact getD_range_lt _ _ hcur
                  rw [hidx] at hclamp ⊢
                  simp only [filterBookmarks_empty_filter,
                    length_deleteIdx m.bookmarks m.cursor hcur,
                    List.length_range] at hclamp ⊢
                  intro hne
                  have hpos : 0 < m.bookmarks.length - 1 := by
                    simpa using List.length_pos.mpr hne
                  omega
                · exact h3
              · by_cases hj : s = "j"
                · subst hj
                  simp only [update, he', Bool.false_eq_true, if_false, updateBrowsing,
                    hf, if_pos rfl]
                  simp only [reduceIte]
                  split_ifs with hc
                  · dsimp only [noStep]
                    intro hne
                    omega
                  · exact h3
                · by_cases hk : s = "k"
                  · subst hk
                    simp only [update, he', Bool.false_eq_true, if_false, updateBrowsing,
                      hf, if_pos rfl]
                    simp only [reduceIte]
                    split_ifs with hc
                    · dsimp only [noStep]
                      intro hne
                      have := h3 hne
                      omega
                    · exact h3
                  · simp only [update, he', Bool.false_eq_true, if_false, updateBrowsing,
                      hf, if_pos rfl, hq, hekey, hd, hj, hk, noStep,
                      appendToFilter]
                    intro hne
                    exact List.length_pos.mpr hne
        · simp only [update, he', Bool.false_eq_true, if_false, updateBrowsing,
            if_neg hf, noStep, appendToFilter]
          intro hne
          exact List.length_pos.mpr hne

lemma getD_set_self (l : List Bookmark) (i : Nat) (a : Bookmark)
    (h : i < l.length) : (l.set i a).getD i default = a := by
  rw [List.getD_eq_getElem?_getD, List.getElem?_set_self h]
  rfl

lemma getD_set_ne (l : List Bookmark) (i j : Nat) (a : Bookmark)
    (h : j ≠ i) : (l.set i a).getD j default = l.getD j default := by
  rw [List.getD_eq_getElem?_getD, List.getD_eq_getElem?_getD,
    List.getElem?_set_ne (Ne.symm h)]

lemma string_length_pos (s : String) (h : s ≠ "") : 0 < s.length := by
  rcases s with ⟨data⟩
  cases data with
  | nil => exact absurd rfl h
  | cons c cs => simp [String.length]

/-- The state initialModel hands to the event loop satisfies all three
session-state invariants, whatever the loaded list is. -/
lemma initialFrom_wf (bs : List Bookmark) :
    wfFiltered (initialFrom bs) ∧ wfEditing (initialFrom bs)
      ∧ wfCursor (initialFrom bs) := by
  refine ⟨rfl, by simp [wfEditing, initialFrom], ?_⟩
  intro hne
  exact List.length_pos.mpr hne

/-! The claims. -/

/-- C1: in Browsing with a non-empty filtered view (and the cursor and
selected index in range, as the session-state invariants guarantee), a
confirm-key increments the count of the record at
bookmarks[filtered[cursor]] by exactly one, persists the full bookmark
list via the Store, sets the result to that record's path and terminates
the session; the selected record's path and name, and every other
record, are unchanged, as are filtered and the filter. -/
theorem select_increments_count (m : Model) (hed : m.editing = false)
    (hc : m.cursor < m.filtered.length)
    (hidx : m.filtered.getD m.cursor 0 < m.bookmarks.length) :
    (update m .enter).quit = true
    ∧ (update m .enter).model.bookmarks
        = m.bookmarks.set (m.filtered.getD m.cursor 0)
            { m.bookmarks.getD (m.filtered.getD m.cursor 0) default with
                count := (m.bookmarks.getD (m.filtered.getD m.cursor 0)
                  default).count + 1 }
    ∧ (update m .enter).saved
        = some (m.bookmarks.set (m.filtered.getD m.cursor 0)
            { m.bookmarks.getD (m.filtered.getD m.cursor 0) default with
                count := (m.bookmarks.getD (m.filtered.getD m.cursor 0)
                  default).count + 1 })
    ∧ (update m .enter).model.selectedPath
        = (m.bookmarks.getD (m.filtered.getD m.cursor 0) default).path
    ∧ ((update m .enter).model.bookmarks.getD (m.filtered.getD m.cursor 0)
          default).count
        = (m.bookmarks.getD (m.filtered.getD m.cursor 0) default).count + 1
    ∧ ((update m .enter).model.bookmarks.getD (m.filtered.getD m.cursor 0)
          default).path
        = (m.bookmarks.getD (m.filtered.getD m.cursor 0) default).path
    ∧ ((update m .enter).model.bookmarks.getD (m.filtered.getD m.cursor 0)
          default).name
        = (m.bookmarks.getD (m.filtered.getD m.cursor 0) default).name
    ∧ (∀ j, j ≠ m.filtered.getD m.cursor 0 →
        (update m .enter).model.bookmarks.getD j default
          = m.bookmarks.getD j default)
    ∧ (update m .enter).model.filtered = m.filtered
    ∧ (update m .enter).model.filter = m.filter := by
  have hlen : 0 < m.filtered.length := by omega
  simp only [update, hed, Bool.false_eq_true, if_false, updateBrowsing,
    if_pos hlen]
  refine ⟨?_, ?_, ?_, ?_, ?_, ?_, ?_, ?_, ?_, ?_⟩ <;>
    first
      | trivial
      | rw [getD_set_self m.bookmarks (m.filtered.getD m.cursor 0) _ hidx]
      | (intro j hj
         exact getD_set_ne m.bookmarks (m.filtered.getD m.cursor 0) j _ hj)

/-- C1 witness: the claim discharged at a concrete two-record session;
the record at index 0 goes from count 3 to count 4 and its path is
reported. -/
theorem select_increments_count_witness :
    (update (initialFrom [workBk, playBk]) .enter).quit = true
    ∧ (update (initialFrom [workBk, playBk]) .enter).model.bookmarks
        = [⟨"/home/u/work", "work", 4⟩, playBk]
    ∧ (update (initialFrom [workBk, playBk]) .enter).model.selectedPath
        = "/home/u/work" := by
  have h := select_increments_count (initialFrom [workBk, playBk])
    (by decide) (by decide) (by decide)
  refine ⟨h.1, ?_, ?_⟩
  · rw [h.2.1]
    decide
  · rw [h.2.2.2.1]
    decide

/-- C2: after every key event (from a state satisfying the session-state
invariants), filtered is exactly the list of indices j of bookmarks whose
lower-cased name or lower-cased path contains the lower-cased filter as a
substring, in increasing index order; and whenever the filter is empty,
filtered is the identity sequence over the current bookmarks. -/
theorem filtered_matches_filter (m : Model) (k : Key) (h1 : wfFiltered m)
    (h2 : wfEditing m) :
    (update m k).model.filtered
      = (List.range (update m k).model.bookmarks.length).filter
          (fun j => bkMatches (goToLower (update m k).model.filter)
              ((update m k).model.bookmarks.getD j default))
    ∧ ((update m k).model.filter = "" →
        (update m k).model.filtered
          = List.range (update m k).model.bookmarks.length) := by
  have hw := wfFiltered_step m k h1 h2
  unfold wfFiltered at hw
  constructor
  · rw [hw, filterBookmarks_eq]
  · intro h0
    rw [hw, h0, filterBookmarks_empty_filter]

/-- C2 witness: the claim discharged at a concrete session for the key
event typing the character w. -/
theorem filtered_matches_filter_witness :
    wfFiltered (initialFrom [workBk, playBk])
    ∧ wfEditing (initialFrom [workBk, playBk])
    ∧ (update (initialFrom [workBk, playBk]) (.runes "w")).model.filtered
        = [0] := by
  have h := filtered_matches_filter (initialFrom [workBk, playBk])
    (.runes "w") (by decide) (by decide)
  refine ⟨by decide, by decide, ?_⟩
  rw [h.1]
  decide

/-- C4: the invariant 0 ≤ cursor < length filtered (filtered non-empty)
is preserved by every key event; moving up from cursor 0 and moving down
from the last filtered index leave the state unchanged; and deleting the
only element of a single-element filtered view resets the cursor to 0
(no underflow) with filtered becoming empty. -/
theorem cursor_stays_in_range (m : Model) (k : Key) (h1 : wfFiltered m)
    (h2 : wfEditing m) (h3 : wfCursor m) :
    wfCursor (update m k).model
    ∧ (m.editing = false → m.cursor = 0 → update m .up = noStep m)
    ∧ (m.editing = false → m.cursor = m.filtered.length - 1 →
        update m .down = noStep m)
    ∧ (m.editing = false → m.filter = "" → m.filtered.length = 1 →
        (update m (.runes "d")).model.cursor = 0
        ∧ (update m (.runes "d")).model.filtered = []) := by
  refine ⟨wfCursor_step m k h1 h2 h3, ?_, ?_, ?_⟩
  · intro he hc
    simp [update, he, updateBrowsing, hc, noStep]
  · intro he hc
    simp [update, he, updateBrowsing, hc, noStep]
  · intro he hf h1len
    have hn : m.bookmarks.length = 1 := by
      rw [wfFiltered] at h1
      rw [h1, hf, filterBookmarks_empty_filter, List.length_range] at h1len
      exact h1len
    have hfl : m.filtered = [0] := by
      rw [wfFiltered] at h1
      rw [h1, hf, filterBookmarks_empty_filter, hn]
      decide
    have hc0 : m.cursor = 0 := by
      unfold wfCursor at h3
      have hne : m.filtered ≠ [] := by
        rw [hfl]
        simp
      have hlt := h3 hne
      omega
    have hdrop : m.bookmarks.drop 1 = [] := List.drop_eq_nil_of_le (by omega)
    constructor
    · simp [update, he, updateBrowsing, hf, hfl, hc0, hdrop,
        filterBookmarks_empty_filter]
    · simp [update, he, updateBrowsing, hf, hfl, hc0, hdrop,
        filterBookmarks_empty_filter]

/-- C4 witness: the claim discharged at the concrete two-record session
with the cursor on the last row, for the down-key event. -/
theorem cursor_stays_in_range_witness :
    wfFiltered twoState ∧ wfEditing twoState ∧ wfCursor twoState
    ∧ wfCursor (update twoState .down).model
    ∧ (twoState.editing = false → twoState.cursor = twoState.filtered.length - 1 →
        update twoState .down = noStep twoState) := by
  have h := cursor_stays_in_range twoState .down
    (by decide) (by decide) (by decide)
  exact ⟨by decide, by decide, by decide, h.1, h.2.2.1⟩

/-- C5: in Browsing with an empty filter and a non-empty filtered view, a
d event removes exactly the record at index filtered[cursor] from
bookmarks (the records before it and after it are kept in order),
persists the new list via the Store, recomputes filtered from the mutated
bookmarks with the same filter, and then decrements the cursor by exactly
one precisely when cursor ≥ length of the new filtered and cursor > 0;
the event does not terminate the session. -/
theorem delete_removes_selected (m : Model) (hed : m.editing = false)
    (hf : m.filter = "") (hlen : 0 < m.filtered.length) :
    (update m (.runes "d")).model.bookmarks
      = m.bookmarks.take (m.filtered.getD m.cursor 0)
          ++ m.bookmarks.drop (m.filtered.getD m.cursor 0 + 1)
    ∧ (update m (.runes "d")).saved
        = some (m.bookmarks.take (m.filtered.getD m.cursor 0)
            ++ m.bookmarks.drop (m.filtered.getD m.cursor 0 + 1))
    ∧ (update m (.runes "d")).model.filtered
        = filterBookmarks (m.bookmarks.take (m.filtered.getD m.cursor 0)
            ++ m.bookmarks.drop (m.filtered.getD m.cursor 0 + 1)) m.filter
    ∧ (update m (.runes "d")).model.filter = m.filter
    ∧ (update m (.runes "d")).model.cursor
        = (if (update m (.runes "d")).model.filtered.length ≤ m.cursor
              ∧ 0 < m.cursor
           then m.cursor - 1 else m.cursor)
    ∧ (update m (.runes "d")).quit = false := by
  simp only [update, hed, Bool.false_eq_true, if_false, updateBrowsing, hf,
    if_pos rfl, reduceIte, if_pos hlen]
  exact ⟨rfl, rfl, rfl, rfl, rfl, rfl⟩

/-- C5 witness: the claim discharged at the concrete two-record session
with the cursor on the last row; the record at index 1 is removed and the
cursor is clamped from 1 to 0. -/
theorem delete_removes_selected_witness :
    twoState.editing = false ∧ twoState.filter = ""
    ∧ 0 < twoState.filtered.length
    ∧ (update twoState (.runes "d")).model.bookmarks = [workBk]
    ∧ (update twoState (.runes "d")).model.cursor = 0 := by
  have h := delete_removes_selected twoState (by decide) (by decide)
    (by decide)
  refine ⟨by decide, by decide, by decide, ?_, ?_⟩
  · rw [h.1]
    decide
  · rw [h.2.2.2.2.1]
    decide

/-- C6: in Editing (with the filtered view non-empty, as it is in every
reachable editing state), a confirm-key writes editValue into the
selected record's name and persists via the Store, while a cancel-key
discards editValue and changes no record; concretely, entering edit mode
on an alias-free record, typing x then y, then cancelling leaves the
stored records unchanged, while the same typing followed by confirm
renames the record to xy and persists it. -/
theorem edit_commit_vs_cancel (m : Model) (hed : m.editing = true)
    (hlen : 0 < m.filtered.length) :
    (update m .enter).model.bookmarks
      = m.bookmarks.set (m.filtered.getD m.cursor 0)
          { m.bookmarks.getD (m.filtered.getD m.cursor 0) default with
              name := m.editValue }
    ∧ (update m .enter).saved
        = some (m.bookmarks.set (m.filtered.getD m.cursor 0)
            { m.bookmarks.getD (m.filtered.getD m.cursor 0) default with
                name := m.editValue })
    ∧ (update m .enter).model.editing = false
    ∧ (update m .enter).model.editValue = ""
    ∧ (update m .esc).model
        = { m with editing := false, editValue := "" }
    ∧ (update m .esc).model.bookmarks = m.bookmarks
    ∧ (update m .esc).saved = none
    ∧ (update scenTyped .esc).model.bookmarks = [playBk]
    ∧ (update scenTyped .esc).saved = none
    ∧ (update scenTyped .enter).model.bookmarks = [⟨"/tmp/play", "xy", 1⟩]
    ∧ (update scenTyped .enter).saved = some [⟨"/tmp/play", "xy", 1⟩] := by
  simp only [update, hed, if_true, updateEditing, if_pos hlen]
  refine ⟨?_, ?_, ?_, ?_, ?_, ?_, ?_, ?_, ?_, ?_, ?_⟩ <;> trivial

/-- C6 witness: the claim discharged at the concrete typed-in editing
state scenTyped itself. -/
theorem edit_commit_vs_cancel_witness :
    scenTyped.editing = true ∧ 0 < scenTyped.filtered.length
    ∧ (update scenTyped .enter).model.bookmarks
        = [⟨"/tmp/play", "xy", 1⟩] := by
  have h := edit_commit_vs_cancel scenTyped (by decide) (by decide)
  exact ⟨by decide, by decide, h.2.2.2.2.2.2.2.2.2.1⟩

/-- C10: in Browsing with an empty filtered view, a confirm-key is a
complete no-op: the session does not terminate, nothing is saved, and the
session state is returned unchanged. -/
theorem confirm_empty_filtered_noop (m : Model) (hed : m.editing = false)
    (hfe : m.filtered = []) : update m .enter = noStep m := by
  have h0 : ¬(0 < m.filtered.length) := by
    rw [hfe]
    simp
  simp only [update, hed, Bool.false_eq_true, if_false, updateBrowsing,
    if_neg h0, noStep]

/-- C10 witness: the claim discharged at the empty-store session. -/
theorem confirm_empty_filtered_noop_witness :
    (initialFrom []).editing = false ∧ (initialFrom []).filtered = []
    ∧ update (initialFrom []) .enter = noStep (initialFrom []) :=
  ⟨by decide, by decide,
    confirm_empty_filtered_noop (initialFrom []) (by decide) (by decide)⟩

/-- C9 counterexample: a reachable Browsing session state (empty filter,
cursor on the second row — the state obtained from a freshly initialised
two-record session by one down-key) on which a backspace event leaves the
cursor at 1, not 0: the claim that after a backspace event the cursor is
always 0 is false on the code. -/
theorem backspace_keeps_cursor_cex :
    twoState.editing = false ∧ twoState.filter = ""
    ∧ wfFiltered twoState ∧ wfEditing twoState ∧ wfCursor twoState
    ∧ twoState = (update (initialFrom [workBk, playBk]) .down).model
    ∧ (update twoState .backspace).model.cursor = 1
    ∧ ¬((update twoState .backspace).model.cursor = 0) := by
  refine ⟨by decide, by decide, by decide, by decide, by decide, rfl,
    by decide, by decide⟩

/-- C9 (amended): in Browsing, when the filter is non-empty, a backspace
event removes its last character, recomputes filtered over the current
bookmarks with the shortened filter and resets the cursor to 0, saving
nothing and not terminating; when the filter is empty, the event is a
complete no-op (in particular the cursor keeps its value, it is not reset
to 0). -/
theorem backspace_updates_filter (m : Model) (hed : m.editing = false) :
    (m.filter ≠ "" →
      (update m .backspace).model.filter = String.mk m.filter.data.dropLast
      ∧ (update m .backspace).model.filtered
          = filterBookmarks m.bookmarks (String.mk m.filter.data.dropLast)
      ∧ (update m .backspace).model.cursor = 0
      ∧ (update m .backspace).model.bookmarks = m.bookmarks
      ∧ (update m .backspace).saved = none
      ∧ (update m .backspace).quit = false)
    ∧ (m.filter = "" → update m .backspace = noStep m) := by
  constructor
  · intro hne
    have hlen : 0 < m.filter.length := string_length_pos m.filter hne
    simp only [update, hed, Bool.false_eq_true, if_false, updateBrowsing,
      if_pos hlen]
    exact ⟨rfl, rfl, rfl, rfl, rfl, rfl⟩
  · intro h0
    have hlen : ¬(0 < m.filter.length) := by
      rw [h0]
      decide
    simp only [update, hed, Bool.false_eq_true, if_false, updateBrowsing,
      if_neg hlen, noStep]

/-- C9 witness: the amended claim discharged at a session whose filter
is the one-character string w. -/
theorem backspace_updates_filter_witness :
    ((update (initialFrom [workBk, playBk]) (.runes "w")).model).editing = false
    ∧ ((update (initialFrom [workBk, playBk]) (.runes "w")).model).filter ≠ ""
    ∧ (update ((update (initialFrom [workBk, playBk]) (.runes "w")).model)
        .backspace).model.filter = ""
    ∧ (update ((update (initialFrom [workBk, playBk]) (.runes "w")).model)
        .backspace).model.cursor = 0 := by
  have h := backspace_updates_filter
    ((update (initialFrom [workBk, playBk]) (.runes "w")).model) (by decide)
  have h2 := h.1 (by decide)
  refine ⟨by decide, by decide, ?_, h2.2.2.1⟩
  rw [h2.1]
  decide

/-! The Store round trip. -/

lemma goToLower_path : goToLower "path" = "path" := by decide

lemma goToLower_name : goToLower "name" = "name" := by decide

lemma goToLower_count : goToLower "count" = "count" := by decide

lemma goToLower_bookmarks : goToLower "bookmarks" = "bookmarks" := by decide

lemma decBookmark_bookmarkJson (b : Bookmark) :
    decBookmark (bookmarkJson b) default = (b, false) := by
  obtain ⟨p, n, c⟩ := b
  by_cases hn : n = ""
  · subst hn
    simp [bookmarkJson, decBookmark, decString, decInt, goToLower_path,
      goToLower_name, goToLower_count]
    rfl
  · simp [bookmarkJson, decBookmark, hn, decString, decInt, goToLower_path,
      goToLower_name, goToLower_count]

lemma decElems_marshal (bs : List Bookmark) :
    decElems (bs.map bookmarkJson) [] = (bs, false) := by
  induction bs with
  | nil => rfl
  | cons b rest ih =>
      simp [decElems, decBookmark_bookmarkJson, ih]

/-- C7: saving any sequence of Bookmark records through the Store and
loading it back yields the original sequence, field for field — including
the empty sequence, records with an empty name (whose name member is
omitted on disk) and records with count zero. -/
theorem store_roundtrip (bs : List Bookmark) :
    loadConfig (saveConfig bs) = bs := by
  show (decConfig (configJson bs)).1 = bs
  simp [decConfig, configJson, goToLower_bookmarks, decBookmarkList,
    decElems_marshal bs]

/-- C8 counterexample: a store document that fails to parse (Unmarshal
reports an error on it: the first record's count field holds a string)
from which loadConfig nevertheless recovers records — both records are
returned, the ill-typed count left at zero — so a failed parse is NOT
discarded as a whole. -/
theorem load_failed_parse_recovers_cex :
    (decConfig badStoreDoc).2 = true
    ∧ loadConfig (.doc badStoreDoc) = [⟨"/a", "", 0⟩, ⟨"/b", "", 2⟩]
    ∧ loadConfig (.doc badStoreDoc) ≠ [] := by
  refine ⟨by decide, by decide, by decide⟩

/-- C8 (amended): loadConfig never fails its caller: a missing or
unreadable file and a syntactically invalid document all yield the empty
sequence (a syntactically invalid document is discarded as a whole,
because Unmarshal validates the syntax before writing anything); but a
syntactically valid document on which decoding reports an error is not
discarded: loadConfig returns whatever the best-effort decode produced,
as the concrete badStoreDoc shows. -/
theorem load_error_fallback :
    loadConfig .missing = [] ∧ loadConfig .unreadable = []
    ∧ loadConfig .invalid = []
    ∧ (∀ j : Json, loadConfig (.doc j) = (decConfig j).1)
    ∧ ((decConfig badStoreDoc).2 = true
        ∧ loadConfig (.doc badStoreDoc) = [⟨"/a", "", 0⟩, ⟨"/b", "", 2⟩]) := by
  exact ⟨rfl, rfl, rfl, fun j => rfl, by decide, by decide⟩

/-! Support for the initialization sort (claim C3).  sortBookmarks calls
sort.Slice, whose documentation says the sort is not guaranteed to be
stable, and whose algorithm (pdqsort since Go 1.19, quicksort before) is
not part of this repository; on slices of at most 12 elements, Go 1.19+
runs exactly the insertion sort modelled above, which is stable.  The
specification's own example is settled on that regime. -/

/-- The specification's sort-stability example: counts [3,1,3,2] in
original order A, B, C, D sort (descending by count, under the
insertion-sort regime of sort.Slice) to A, C, D, B: the two count-3
records keep their relative order. -/
theorem insertionSortGo_spec_example :
    insertionSortGo [⟨"A", "", 3⟩, ⟨"B", "", 1⟩, ⟨"C", "", 3⟩, ⟨"D", "", 2⟩]
      = [⟨"A", "", 3⟩, ⟨"C", "", 3⟩, ⟨"D", "", 2⟩, ⟨"B", "", 1⟩] := by
  decide
